import Mathlib

/-!
Shallow embedding of the core of zeronsd (file src/utils.rs) and proofs
about it.  Strings are modelled as lists of Unicode characters
(List Char); the Rust regex character classes and str trimming are
modelled as Boolean character predicates.
-/

namespace Zeronsd

/-- Decidable equality for Except values, used to evaluate the embedded
functions on concrete inputs. -/
instance exceptDecEq {ε α : Type} [DecidableEq ε] [DecidableEq α] :
    DecidableEq (Except ε α)
  | .error e, .error f =>
    if h : e = f then .isTrue (by rw [h]) else .isFalse (by intro hc; cases hc; exact h rfl)
  | .error _, .ok _ => .isFalse (by intro hc; cases hc)
  | .ok _, .error _ => .isFalse (by intro hc; cases hc)
  | .ok a, .ok b =>
    if h : a = b then .isTrue (by rw [h]) else .isFalse (by intro hc; cases hc; exact h rfl)

/-- Model of the Unicode White_Space property, used both by the regex
class backslash-s and by Rust's str::trim.  The enumerated codepoints
are exactly the Unicode White_Space set. -/
def isWs (c : Char) : Bool :=
  (0x09 ≤ c.toNat && c.toNat ≤ 0x0D) || c == ' ' || c.toNat == 0x85 ||
  c.toNat == 0xA0 || c.toNat == 0x1680 ||
  (0x2000 ≤ c.toNat && c.toNat ≤ 0x200A) || c.toNat == 0x2028 ||
  c.toNat == 0x2029 || c.toNat == 0x202F || c.toNat == 0x205F ||
  c.toNat == 0x3000

/-- Model of a letter for the purposes of the regex word class: exact on
ASCII (A-Z, a-z); every codepoint above 0x7F is approximated as a
letter (the real Unicode word class keeps alphabetics, marks, decimal
digits, connector punctuation and join controls there, which the claims
never depend on). -/
def isLetterM (c : Char) : Bool := c.isAlpha || 0x80 ≤ c.toNat

/-- Model of the regex class backslash-w (word character): letter, digit
or underscore. -/
def isWordChar (c : Char) : Bool := isLetterM c || c.isDigit || c == '_'

/-- Characters KEPT by the second rewrite rule of translation_table: the
regex deletes every maximal run matching the negated class of
dot, whitespace, word characters, digits and hyphen, i.e. it keeps
exactly the characters of that class. -/
def keepChar (c : Char) : Bool :=
  c == '.' || isWs c || isWordChar c || c.isDigit || c == '-'

/-- First rewrite rule of translation_table: the regex replacing every
maximal run of whitespace by a single hyphen. -/
def collapseWs : List Char → List Char
  | [] => []
  | [c] => if isWs c then ['-'] else [c]
  | c :: d :: rest =>
    if isWs c then
      if isWs d then collapseWs (d :: rest) else '-' :: collapseWs (d :: rest)
    else c :: collapseWs (d :: rest)

/-- Model of Rust str::trim: remove leading and trailing White_Space
characters. -/
def trimL (l : List Char) : List Char :=
  (((l.dropWhile isWs).reverse).dropWhile isWs).reverse

/-- Application of the source's translation_table to a string: rule one
(whitespace runs to a hyphen) followed by rule two (delete every
character outside the kept class).  In the source this is the for loop
in ToHostname::to_hostname over translation_table(). -/
def translate (s : List Char) : List Char :=
  (collapseWs s).filter keepChar

/-- Splitting a character list on the dot character; used to model DNS
label structure. -/
def splitOnDot : List Char → List (List Char)
  | [] => [[]]
  | c :: rest =>
    match splitOnDot rest with
    | [] => [[c]]
    | l :: ls => if c = '.' then [] :: l :: ls else (c :: l) :: ls

/-- Modelled from the spec: validity of a (relative, no trailing dot)
DNS name for the external trust-dns parser, which is not part of this
repository.  The parser accepts a non-empty string whose dot-separated
labels are all non-empty and at most 63 characters long (so consecutive
dots, a leading dot, or an oversized label are rejected). -/
def nameOk (s : List Char) : Bool :=
  !s.isEmpty && (splitOnDot s).all (fun l => !l.isEmpty && l.length ≤ 63)

/-- Modelled from the spec: the structured name type of the external
trust-dns library.  text holds the dot-joined labels without a trailing
dot; fqdn records whether the name is absolute. -/
structure Name where
  text : List Char
  fqdn : Bool
deriving DecidableEq

/-- Display form of a Name: the text, with a trailing dot exactly when
the name is absolute (fqdn). -/
def Name.to_string (n : Name) : List Char :=
  if n.fqdn then n.text ++ ['.'] else n.text

/-- Model of trust-dns Name::set_fqdn. -/
def Name.set_fqdn (n : Name) (b : Bool) : Name := ⟨n.text, b⟩

/-- Modelled from the spec: the external trust-dns string-to-name parser
(Name::from_utf8, reached both by Name::from_str and by
IntoName::into_name for strings).  A lone dot is the root; a trailing
dot marks an absolute name whose body must be valid; otherwise the
whole string must be valid and the name is relative. -/
def from_utf8 (s : List Char) : Except String Name :=
  if s = ['.'] then .ok ⟨[], true⟩
  else if s.getLast? = some '.' then
    if nameOk s.dropLast then .ok ⟨s.dropLast, true⟩ else .error "name parse error"
  else
    if nameOk s then .ok ⟨s, false⟩ else .error "name parse error"

/-- Model of IntoName::into_name for strings. -/
def into_name (s : List Char) : Except String Name := from_utf8 s

/-- The rewritten-and-trimmed string computed by
ToHostname::to_hostname for String before validation: trim the input,
apply the translation table, trim again. -/
def rewriteStr (input : List Char) : List Char :=
  trimL (translate (trimL input))

/-- Model of ToHostname::to_hostname for String (src/utils.rs lines
215-233): rewrite, then reject a lone dot or a trailing dot, then
reject the empty string, then parse the (re-trimmed) result. -/
def to_hostname (input : List Char) : Except String Name :=
  if rewriteStr input = ['.'] ∨ (rewriteStr input).getLast? = some '.' then
    .error "record not entered into catalog: dot and records that end in dot are disallowed"
  else if (rewriteStr input).length = 0 then
    .error "translated hostname is an empty string"
  else
    into_name (trimL (rewriteStr input))

/-! Helper lemmas about the rewrite pipeline. -/

theorem mem_collapseWs_not_ws (l : List Char) :
    ∀ c ∈ collapseWs l, isWs c = false := by
  induction l with
  | nil => intro c hc; simp [collapseWs] at hc
  | cons c rest ih =>
    intro x hx
    cases rest with
    | nil =>
      by_cases hc : isWs c
      · simp [collapseWs, hc] at hx
        subst hx; decide
      · simp [collapseWs, hc] at hx
        subst hx; simpa using hc
    | cons d rest2 =>
      by_cases hc : isWs c
      · by_cases hd : isWs d
        · rw [collapseWs, if_pos hc, if_pos hd] at hx
          exact ih x hx
        · rw [collapseWs, if_pos hc, if_neg hd] at hx
          rcases List.mem_cons.mp hx with rfl | hx
          · decide
          · exact ih x hx
      · rw [collapseWs, if_neg hc] at hx
        rcases List.mem_cons.mp hx with rfl | hx
        · simpa using hc
        · exact ih x hx

theorem collapseWs_eq_self (l : List Char) (h : ∀ c ∈ l, isWs c = false) :
    collapseWs l = l := by
  induction l with
  | nil => rfl
  | cons c rest ih =>
    have hc : isWs c = false := h c (List.mem_cons_self c rest)
    cases rest with
    | nil => simp [collapseWs, hc]
    | cons d rest2 =>
      rw [collapseWs, if_neg (by simp [hc])]
      rw [ih (fun x hx => h x (List.mem_cons_of_mem c hx))]

theorem dropWhile_eq_self_of (p : Char → Bool) (l : List Char)
    (h : ∀ c ∈ l, p c = false) : l.dropWhile p = l := by
  cases l with
  | nil => rfl
  | cons c rest =>
    have hc : p c = false := h c (List.mem_cons_self c rest)
    simp [List.dropWhile_cons, hc]

theorem mem_of_mem_dropWhile (p : Char → Bool) (l : List Char) :
    ∀ c ∈ l.dropWhile p, c ∈ l := by
  induction l with
  | nil => intro c hc; simp [List.dropWhile] at hc
  | cons a rest ih =>
    intro c hc
    by_cases ha : p a
    · rw [List.dropWhile_cons_of_pos ha] at hc
      exact List.mem_cons_of_mem a (ih c hc)
    · rw [List.dropWhile_cons_of_neg ha] at hc
      exact hc

theorem mem_of_mem_trimL (l : List Char) : ∀ c ∈ trimL l, c ∈ l := by
  intro c hc
  unfold trimL at hc
  rw [List.mem_reverse] at hc
  have h1 := mem_of_mem_dropWhile isWs _ c hc
  rw [List.mem_reverse] at h1
  exact mem_of_mem_dropWhile isWs l c h1

theorem trimL_eq_self (l : List Char) (h : ∀ c ∈ l, isWs c = false) :
    trimL l = l := by
  unfold trimL
  rw [dropWhile_eq_self_of isWs l h]
  rw [dropWhile_eq_self_of isWs l.reverse (fun c hc => h c (List.mem_reverse.mp hc))]
  exact List.reverse_reverse l

theorem dropWhile_dropWhile (p : Char → Bool) (l : List Char) :
    (l.dropWhile p).dropWhile p = l.dropWhile p := by
  induction l with
  | nil => rfl
  | cons c rest ih =>
    by_cases hc : p c
    · rw [List.dropWhile_cons_of_pos hc]; exact ih
    · rw [List.dropWhile_cons_of_neg hc, List.dropWhile_cons_of_neg hc]

theorem length_dropWhile_le' (p : Char → Bool) (l : List Char) :
    (l.dropWhile p).length ≤ l.length := by
  induction l with
  | nil => exact Nat.le_refl _
  | cons c rest ih =>
    by_cases hc : p c
    · rw [List.dropWhile_cons_of_pos hc]
      exact Nat.le_trans ih (Nat.le_succ _)
    · rw [List.dropWhile_cons_of_neg hc]

theorem dropWhile_append_fixed (p : Char → Bool) (x t : List Char)
    (h : (x ++ t).dropWhile p = x ++ t) : x.dropWhile p = x := by
  cases x with
  | nil => rfl
  | cons c cs =>
    by_cases hc : p c
    · exfalso
      rw [List.cons_append, List.dropWhile_cons_of_pos hc] at h
      have hlen := congrArg List.length h
      have hle : ((cs ++ t).dropWhile p).length ≤ (cs ++ t).length :=
        length_dropWhile_le' p (cs ++ t)
      rw [hlen] at hle
      simp at hle
    · rw [List.dropWhile_cons_of_neg hc]

/-- Removing trailing whitespace: the second half of trimL. -/
def dropTrailWs (l : List Char) : List Char :=
  (l.reverse.dropWhile isWs).reverse

theorem dropTrailWs_decomp (l : List Char) :
    ∃ u, l = dropTrailWs l ++ u := by
  refine ⟨(l.reverse.takeWhile isWs).reverse, ?_⟩
  unfold dropTrailWs
  rw [← List.reverse_append, List.takeWhile_append_dropWhile, List.reverse_reverse]

theorem dropTrailWs_dropTrailWs (l : List Char) :
    dropTrailWs (dropTrailWs l) = dropTrailWs l := by
  unfold dropTrailWs
  rw [List.reverse_reverse, dropWhile_dropWhile]

theorem trimL_idem (l : List Char) : trimL (trimL l) = trimL l := by
  have htrim : ∀ x : List Char, trimL x = dropTrailWs (x.dropWhile isWs) := by
    intro x; rfl
  rw [htrim, htrim l]
  have hfix : (l.dropWhile isWs).dropWhile isWs = l.dropWhile isWs :=
    dropWhile_dropWhile isWs l
  obtain ⟨u, hu⟩ := dropTrailWs_decomp (l.dropWhile isWs)
  have hdt : (dropTrailWs (l.dropWhile isWs)).dropWhile isWs
      = dropTrailWs (l.dropWhile isWs) := by
    apply dropWhile_append_fixed isWs _ u
    rw [← hu]
    exact hfix
  rw [hdt, dropTrailWs_dropTrailWs]

theorem mem_translate (s : List Char) :
    ∀ c ∈ translate s, keepChar c = true ∧ isWs c = false := by
  intro c hc
  unfold translate at hc
  rw [List.mem_filter] at hc
  exact ⟨hc.2, mem_collapseWs_not_ws s c hc.1⟩

theorem mem_rewriteStr (s : List Char) :
    ∀ c ∈ rewriteStr s, keepChar c = true ∧ isWs c = false := by
  intro c hc
  exact mem_translate (trimL s) c (mem_of_mem_trimL _ c hc)

theorem trimL_rewriteStr (s : List Char) : trimL (rewriteStr s) = rewriteStr s :=
  trimL_eq_self _ (fun c hc => (mem_rewriteStr s c hc).2)

theorem translate_fixed (t : List Char)
    (h : ∀ c ∈ t, keepChar c = true ∧ isWs c = false) : translate t = t := by
  unfold translate
  rw [collapseWs_eq_self t (fun c hc => (h c hc).2)]
  exact List.filter_eq_self.mpr (fun c hc => (h c hc).1)

theorem rewriteStr_fixed (t : List Char)
    (h : ∀ c ∈ t, keepChar c = true ∧ isWs c = false) : rewriteStr t = t := by
  unfold rewriteStr
  rw [trimL_eq_self t (fun c hc => (h c hc).2), translate_fixed t h,
    trimL_eq_self t (fun c hc => (h c hc).2)]

theorem rewriteStr_idem (s : List Char) :
    rewriteStr (rewriteStr s) = rewriteStr s :=
  rewriteStr_fixed _ (mem_rewriteStr s)

/-! Embedding of the remaining utils.rs functions the claims cover. -/

/-- Model of Rust splitn(2, slash) on a string: at most two pieces, cut
at the first slash; one piece holding the whole string when no slash
occurs. -/
def splitn2Slash (s : List Char) : List (List Char) :=
  if '/' ∈ s then
    [s.takeWhile (fun c => !(c == '/')), (s.dropWhile (fun c => !(c == '/'))).tail]
  else [s]

/-- Model of parse_ip_from_cidr (src/utils.rs lines 38-44): the first
piece of splitn(2, slash).  The Rust expect on the iterator is modelled
by Option: none would correspond to the panic branch. -/
def parse_ip_from_cidr (ip_with_cidr : List Char) : Option (List Char) :=
  (splitn2Slash ip_with_cidr).head?

/-- Model of central_token (src/utils.rs lines 46-63).  The filesystem
is passed explicitly as a map from paths to optional contents, and the
ZEROTIER_CENTRAL_TOKEN environment variable as an optional string.  The
Except.error result models the Rust panic (expect) on an unreadable
file, which aborts the process instead of returning a value to the
caller. -/
def central_token (fs : List Char → Option (List Char)) (env : Option (List Char))
    (arg : Option (List Char)) : Except String (Option (List Char)) :=
  match arg with
  | some path =>
    match fs path with
    | some contents => .ok (some (trimL contents))
    | none => .error "Could not load token file"
  | none =>
    match env with
    | some token => if 0 < token.length then .ok (some token) else .ok none
    | none => .ok none

/-- Error kinds of get_listen_ips: credential file unreadable, local
agent query failed, or no assigned addresses. -/
inductive ListenErr
  | ioError
  | apiError
  | noListenIps
deriving DecidableEq

/-- Model of the local agent network resource: the optional
assignedAddresses field, a list of CIDR strings. -/
structure OneNetwork where
  assigned_addresses : Option (List (List Char))
deriving DecidableEq

/-- Model of get_listen_ips (src/utils.rs lines 112-135).  The
credential file read is modelled by the filesystem map, and the local
agent query by a map from network ids to an optional network resource
(none standing for a transport/API failure). -/
def get_listen_ips (fs : List Char → Option (List Char))
    (api : List Char → Option OneNetwork)
    (authtoken_path network_id : List Char) : Except ListenErr (List (List Char)) :=
  match fs authtoken_path with
  | none => .error .ioError
  | some _ =>
    match api network_id with
    | none => .error .apiError
    | some listen =>
      match listen.assigned_addresses with
      | some assigned =>
        if 0 < assigned.length then .ok assigned else .error .noListenIps
      | none => .error .noListenIps

/-- The built-in default domain constant DOMAIN_NAME. -/
def DOMAIN_NAME : List Char := "domain.".toList

/-- Model of domain_or_default (src/utils.rs lines 83-93): parse the
supplied domain with a dot appended when non-empty, reject an empty
supplied domain, and parse the default constant when nothing is
supplied. -/
def domain_or_default (tld : Option (List Char)) : Except String Name :=
  match tld with
  | some t =>
    if 0 < t.length then from_utf8 (t ++ ['.'])
    else .error "Domain name must not be empty if provided."
  | none => from_utf8 DOMAIN_NAME

/-- Model of the remote NetworkConfigDns record. -/
structure NetworkConfigDns where
  domain : Option (List Char)
  servers : Option (List (List Char))
deriving DecidableEq

/-- Model of the remote network configuration sub-object: its dns field
plus a rest field standing for every other configuration field, which
update_central_dns never touches. -/
structure NetworkConfig (ρ : Type) where
  dns : Option NetworkConfigDns
  rest : ρ

/-- Model of the remote network resource: its optional configuration
sub-object plus a rest field standing for every other field. -/
structure Network (ρ σ : Type) where
  config : Option (NetworkConfig ρ)
  rest : σ

/-- Model of update_central_dns (src/utils.rs lines 141-171).  The
fetched network resource is passed in (the fetch having succeeded); the
result is the resource written back by the update call, or none when no
update call is made.  In both cases the Rust function returns Ok, so
the success result is implicit; transport failures of the fetch and
update calls are external to this model. -/
def update_central_dns {ρ σ : Type} (domain_name : Name) (ip : List Char)
    (zt_network : Network ρ σ) : Option (Network ρ σ) :=
  let dns : Option NetworkConfigDns :=
    some ⟨some (Name.to_string (Name.set_fqdn domain_name false)), some [ip]⟩
  match zt_network.config with
  | some cfg => some ⟨some ⟨dns, cfg.rest⟩, zt_network.rest⟩
  | none => none

/-- Success flag of an Except value, used to state failure of the
embedded fallible functions. -/
def isOkE {ε α : Type} : Except ε α → Bool
  | .ok _ => true
  | .error _ => false

/-! Claim theorems about the sanitizer. -/

/-- C1: sanitization is idempotent on valid output: whenever to_hostname
succeeds on a string s producing hostname h, applying to_hostname to the
textual form of h succeeds and yields h again. -/
theorem to_hostname_idempotent (s : List Char) (h : Name)
    (hs : to_hostname s = .ok h) : to_hostname (Name.to_string h) = .ok h := by
  unfold to_hostname at hs
  by_cases h1 : rewriteStr s = ['.'] ∨ (rewriteStr s).getLast? = some '.'
  · rw [if_pos h1] at hs; exact absurd hs (by simp)
  rw [if_neg h1] at hs
  by_cases h2 : (rewriteStr s).length = 0
  · rw [if_pos h2] at hs; exact absurd hs (by simp)
  rw [if_neg h2, trimL_rewriteStr] at hs
  unfold into_name from_utf8 at hs
  have hne1 : ¬ rewriteStr s = ['.'] := fun hc => h1 (Or.inl hc)
  have hne2 : ¬ (rewriteStr s).getLast? = some '.' := fun hc => h1 (Or.inr hc)
  rw [if_neg hne1, if_neg hne2] at hs
  by_cases h3 : nameOk (rewriteStr s) = true
  · rw [if_pos h3] at hs
    injection hs with hx
    subst hx
    have hts : Name.to_string ⟨rewriteStr s, false⟩ = rewriteStr s := by
      simp [Name.to_string]
    rw [hts]
    unfold to_hostname
    rw [rewriteStr_idem, if_neg h1, if_neg h2, trimL_rewriteStr]
    unfold into_name from_utf8
    rw [if_neg hne1, if_neg hne2, if_pos h3]
  · rw [if_neg h3] at hs; exact absurd hs (by simp)

/-- Witness for C1 at a concrete input: to_hostname on the string
consisting of x, a space and y produces the hostname x-y, and
re-sanitizing that hostname's textual form yields it again. -/
theorem to_hostname_idempotent_witness :
    to_hostname (Name.to_string ⟨"x-y".toList, false⟩) = .ok ⟨"x-y".toList, false⟩ :=
  to_hostname_idempotent ("x y".toList) ⟨"x-y".toList, false⟩ (by decide)

/-- C2: the sanitizer applies exactly two rewrite rules in order:
whitespace runs become a single hyphen, then every remaining character
that is not a letter, digit, underscore, hyphen or dot is deleted.  In
particular, the input with three spaces between foo and bar yields
foo-bar, and foo with an exclamation mark before bar yields foobar.
The last conjunct states rule two as the claim does, over the output of
rule one. -/
theorem sanitizer_two_rules :
    to_hostname ("foo   bar".toList) = .ok ⟨"foo-bar".toList, false⟩ ∧
    to_hostname ("foo!bar".toList) = .ok ⟨"foobar".toList, false⟩ ∧
    ∀ s : List Char, translate s =
      (collapseWs s).filter
        (fun c => isLetterM c || c.isDigit || c == '_' || c == '-' || c == '.') := by
  refine ⟨by decide, by decide, ?_⟩
  intro s
  unfold translate
  apply List.filter_congr
  intro c hc
  have hws := mem_collapseWs_not_ws s c hc
  unfold keepChar isWordChar
  rw [hws]
  cases hdot : (c == '.') <;> cases hl : isLetterM c <;> cases hd : c.isDigit <;>
    cases hu : (c == '_') <;> cases hh : (c == '-') <;> rfl

/-- C3 counterexample: the input a..b fails in to_hostname even though
its trimmed rewritten string is a..b itself, which is neither a lone
dot, nor dot-terminated, nor empty: the final DNS-name parse rejects
the empty label between the consecutive dots. -/
theorem to_hostname_failure_cex :
    to_hostname ("a..b".toList) = .error "name parse error" ∧
    rewriteStr ("a..b".toList) = "a..b".toList ∧
    ¬ rewriteStr ("a..b".toList) = ['.'] ∧
    ¬ (rewriteStr ("a..b".toList)).getLast? = some '.' ∧
    ¬ rewriteStr ("a..b".toList) = [] := by decide

/-- C3 (amended): to_hostname fails exactly when the trimmed rewritten
string equals a lone dot, ends with a dot, is empty, or is rejected by
the final DNS-name parse (for example an empty label arising from
consecutive dots); the inputs foo-dot, lone dot, and three exclamation
marks are each rejected, and on failure no hostname is produced. -/
theorem to_hostname_failure_characterization :
    isOkE (to_hostname ("foo.".toList)) = false ∧
    isOkE (to_hostname (".".toList)) = false ∧
    isOkE (to_hostname ("!!!".toList)) = false ∧
    ∀ s : List Char, isOkE (to_hostname s) = false ↔
      (rewriteStr s = ['.'] ∨ (rewriteStr s).getLast? = some '.' ∨
       rewriteStr s = [] ∨ nameOk (rewriteStr s) = false) := by
  refine ⟨by decide, by decide, by decide, ?_⟩
  intro s
  unfold to_hostname
  by_cases h1 : rewriteStr s = ['.'] ∨ (rewriteStr s).getLast? = some '.'
  · rw [if_pos h1]
    refine iff_of_true rfl ?_
    rcases h1 with h1 | h1
    · exact Or.inl h1
    · exact Or.inr (Or.inl h1)
  rw [if_neg h1]
  by_cases h2 : (rewriteStr s).length = 0
  · rw [if_pos h2]
    exact iff_of_true rfl (Or.inr (Or.inr (Or.inl (List.length_eq_zero.mp h2))))
  rw [if_neg h2, trimL_rewriteStr]
  unfold into_name from_utf8
  have hne1 : ¬ rewriteStr s = ['.'] := fun hc => h1 (Or.inl hc)
  have hne2 : ¬ (rewriteStr s).getLast? = some '.' := fun hc => h1 (Or.inr hc)
  rw [if_neg hne1, if_neg hne2]
  by_cases h3 : nameOk (rewriteStr s) = true
  · rw [if_pos h3]
    have hright : ¬ (rewriteStr s = ['.'] ∨ (rewriteStr s).getLast? = some '.' ∨
        rewriteStr s = [] ∨ nameOk (rewriteStr s) = false) := by
      push_neg
      exact ⟨hne1, hne2, fun hc => h2 (by rw [hc]; rfl), by simp [h3]⟩
    exact iff_of_false (by simp [isOkE]) hright
  · rw [if_neg h3]
    exact iff_of_true rfl (Or.inr (Or.inr (Or.inr (by simpa using h3))))

/-- C5 counterexample: a label with leading whitespace has that
whitespace removed by the initial trim rather than converted to a
hyphen: to_hostname on space-foo yields foo, not hyphen-foo. -/
theorem trim_before_rewrite_cex :
    to_hostname (" foo".toList) = .ok ⟨"foo".toList, false⟩ ∧
    ¬ to_hostname (" foo".toList) = .ok ⟨"-foo".toList, false⟩ := by decide

/-- C5 (amended): the input is trimmed of leading and trailing
whitespace before the rewrite rules run (and the result is trimmed
again afterwards), so leading and trailing whitespace is silently
removed, never converted to a hyphen; only interior whitespace becomes
a visible hyphen.  Equivalently, to_hostname is invariant under
pre-trimming its input. -/
theorem to_hostname_trim_first :
    (∀ s : List Char, to_hostname s = to_hostname (trimL s)) ∧
    to_hostname ("a b".toList) = .ok ⟨"a-b".toList, false⟩ := by
  refine ⟨?_, by decide⟩
  intro s
  unfold to_hostname rewriteStr
  rw [trimL_idem s, trimL_idem (translate (trimL s))]

/-! Claim theorems about the remaining functions. -/

theorem takeWhile_eq_self_of (p : Char → Bool) (l : List Char)
    (h : ∀ c ∈ l, p c = true) : l.takeWhile p = l := by
  induction l with
  | nil => rfl
  | cons c rest ih =>
    rw [List.takeWhile_cons_of_pos (h c (List.mem_cons_self c rest))]
    rw [ih (fun x hx => h x (List.mem_cons_of_mem c hx))]

/-- C10: parse_ip_from_cidr is total, the expect branch is unreachable
(the split always yields a first piece), and the result is the prefix
of the input before the first slash, the whole input when no slash is
present. -/
theorem parse_ip_from_cidr_total :
    (∀ s : List Char,
      parse_ip_from_cidr s = some (s.takeWhile (fun c => !(c == '/')))) ∧
    (∀ s : List Char, ¬ '/' ∈ s → parse_ip_from_cidr s = some s) := by
  have h1 : ∀ s : List Char,
      parse_ip_from_cidr s = some (s.takeWhile (fun c => !(c == '/'))) := by
    intro s
    unfold parse_ip_from_cidr splitn2Slash
    by_cases hs : '/' ∈ s
    · rw [if_pos hs]; rfl
    · rw [if_neg hs]
      have heq : s.takeWhile (fun c => !(c == '/')) = s := by
        apply takeWhile_eq_self_of
        intro c hc
        have : ¬ c = '/' := fun he => hs (he ▸ hc)
        simp [this]
      rw [heq]
      rfl
  refine ⟨h1, fun s hs => ?_⟩
  rw [h1 s]
  have heq : s.takeWhile (fun c => !(c == '/')) = s := by
    apply takeWhile_eq_self_of
    intro c hc
    have : ¬ c = '/' := fun he => hs (he ▸ hc)
    simp [this]
  rw [heq]

/-- Witness for C10 at concrete inputs: an address without a slash is
returned unchanged. -/
theorem parse_ip_from_cidr_total_witness :
    parse_ip_from_cidr ("10.0.0.1".toList) = some ("10.0.0.1".toList) :=
  parse_ip_from_cidr_total.2 ("10.0.0.1".toList) (by decide)

/-- C6: token resolution precedence is strict and short-circuiting:
with an explicit path the environment is never consulted (the result
does not depend on it) and the file's trimmed contents are returned;
with no path, a present non-empty environment value is returned, and
otherwise None is returned as a success. -/
theorem central_token_precedence :
    (∀ fs : List Char → Option (List Char), ∀ env env2 : Option (List Char),
      ∀ p : List Char, central_token fs env (some p) = central_token fs env2 (some p)) ∧
    (∀ fs : List Char → Option (List Char), ∀ env : Option (List Char),
      ∀ p c : List Char, fs p = some c →
      central_token fs env (some p) = .ok (some (trimL c))) ∧
    (∀ fs : List Char → Option (List Char), ∀ t : List Char, 0 < t.length →
      central_token fs (some t) none = .ok (some t)) ∧
    (∀ fs : List Char → Option (List Char), central_token fs none none = .ok none) ∧
    (∀ fs : List Char → Option (List Char), central_token fs (some []) none = .ok none) := by
  refine ⟨?_, ?_, ?_, ?_, ?_⟩
  · intro fs env env2 p
    unfold central_token
    cases fs p <;> rfl
  · intro fs env p c hc
    simp only [central_token, hc]
  · intro fs t ht
    simp only [central_token]
    rw [if_pos ht]
  · intro fs; rfl
  · intro fs
    simp [central_token]

/-- Witness for C6 at concrete inputs: with both a readable file and a
non-empty environment value set, the file's trimmed contents win. -/
theorem central_token_precedence_witness :
    central_token (fun _ => some (" filetok ".toList)) (some ("envtok".toList))
      (some ("p".toList)) = .ok (some ("filetok".toList)) := by
  rw [central_token_precedence.2.1 (fun _ => some (" filetok ".toList))
    (some ("envtok".toList)) ("p".toList) (" filetok ".toList) rfl]
  decide

/-- C7 counterexample: with an unreadable file the function panics
(modelled by the error result standing for the Rust expect abort)
instead of returning a recoverable I/O error value to the caller; the
Rust return type Option of String has no error channel at all. -/
theorem central_token_panic_cex :
    central_token (fun _ => none) (some ("envtok".toList)) (some ("p".toList)) =
      .error "Could not load token file" := by decide

/-- C7 (amended): when an explicit token file path is given and the
file cannot be read, central_token panics (aborts the process via
expect with the message could-not-load-token-file) rather than
returning a recoverable I/O error; when the file is readable its
contents are trimmed and returned with no further validation, so an
empty trimmed file yields an empty token accepted at this layer. -/
theorem central_token_file_behavior :
    (∀ fs : List Char → Option (List Char), ∀ env : Option (List Char),
      ∀ p : List Char, fs p = none →
      central_token fs env (some p) = .error "Could not load token file") ∧
    (∀ fs : List Char → Option (List Char), ∀ env : Option (List Char),
      ∀ p c : List Char, fs p = some c →
      central_token fs env (some p) = .ok (some (trimL c))) ∧
    (∀ fs : List Char → Option (List Char), ∀ env : Option (List Char),
      ∀ p c : List Char, fs p = some c → trimL c = [] →
      central_token fs env (some p) = .ok (some [])) := by
  refine ⟨?_, ?_, ?_⟩
  · intro fs env p hp
    simp only [central_token, hp]
  · intro fs env p c hc
    simp only [central_token, hc]
  · intro fs env p c hc htrim
    simp only [central_token, hc, htrim]

/-- Witness for C7 at concrete inputs: a whitespace-only file yields
the empty token as a success. -/
theorem central_token_file_behavior_witness :
    central_token (fun _ => some ("  ".toList)) none (some ("p".toList)) =
      .ok (some []) :=
  central_token_file_behavior.2.2 (fun _ => some ("  ".toList)) none
    ("p".toList) ("  ".toList) rfl (by decide)

/-- C8: get_listen_ips fails with the domain error when the network
resource has no assigned-addresses field or an empty list, returns the
address list exactly as received (raw CIDR strings, nothing stripped)
otherwise, and fails with an I/O error when the credential file is
unreadable. -/
theorem get_listen_ips_spec :
    (∀ fs : List Char → Option (List Char), ∀ api : List Char → Option OneNetwork,
      ∀ ap nid : List Char, fs ap = none →
      get_listen_ips fs api ap nid = .error .ioError) ∧
    (∀ fs : List Char → Option (List Char), ∀ api : List Char → Option OneNetwork,
      ∀ ap nid tok : List Char, ∀ net : OneNetwork, fs ap = some tok →
      api nid = some net → net.assigned_addresses = none →
      get_listen_ips fs api ap nid = .error .noListenIps) ∧
    (∀ fs : List Char → Option (List Char), ∀ api : List Char → Option OneNetwork,
      ∀ ap nid tok : List Char, ∀ net : OneNetwork, fs ap = some tok →
      api nid = some net → net.assigned_addresses = some [] →
      get_listen_ips fs api ap nid = .error .noListenIps) ∧
    (∀ fs : List Char → Option (List Char), ∀ api : List Char → Option OneNetwork,
      ∀ ap nid tok : List Char, ∀ net : OneNetwork, ∀ l : List (List Char),
      fs ap = some tok → api nid = some net → net.assigned_addresses = some l →
      ¬ l = [] → get_listen_ips fs api ap nid = .ok l) := by
  refine ⟨?_, ?_, ?_, ?_⟩
  · intro fs api ap nid hfs
    simp only [get_listen_ips, hfs]
  · intro fs api ap nid tok net hfs hapi hass
    simp only [get_listen_ips, hfs, hapi, hass]
  · intro fs api ap nid tok net hfs hapi hass
    simp only [get_listen_ips, hfs, hapi, hass]
    rfl
  · intro fs api ap nid tok net l hfs hapi hass hl
    simp only [get_listen_ips, hfs, hapi, hass]
    rw [if_pos (List.length_pos.mpr hl)]

/-- Witness for C8 at concrete inputs: a single raw CIDR address is
returned exactly as received. -/
theorem get_listen_ips_spec_witness :
    get_listen_ips (fun _ => some ("tok".toList))
      (fun _ => some ⟨some ["10.0.0.1/24".toList]⟩) ("ap".toList) ("nid".toList) =
      .ok ["10.0.0.1/24".toList] :=
  get_listen_ips_spec.2.2.2 (fun _ => some ("tok".toList))
    (fun _ => some ⟨some ["10.0.0.1/24".toList]⟩) ("ap".toList) ("nid".toList)
    ("tok".toList) ⟨some ["10.0.0.1/24".toList]⟩ ["10.0.0.1/24".toList]
    rfl rfl rfl (by decide)

/-- C9 counterexample: a non-empty supplied domain whose parse fails is
rejected rather than returned in absolute form: a..b with a dot
appended has an empty label, so domain_or_default fails instead of
producing the name a..b-dot. -/
theorem domain_or_default_cex :
    domain_or_default (some ("a..b".toList)) = .error "name parse error" ∧
    ¬ domain_or_default (some ("a..b".toList)) = .ok ⟨"a..b".toList, true⟩ := by
  decide

/-- C9 (amended): domain_or_default returns the built-in default domain
(the constant domain-dot) when no string is supplied; fails with a
validation error when the supplied string is empty; and for a non-empty
supplied string appends the trailing separator and parses the result,
returning the absolute name when the string is a well-formed name and
failing with a parse error otherwise. -/
theorem domain_or_default_spec :
    domain_or_default none = .ok ⟨"domain".toList, true⟩ ∧
    domain_or_default (some []) = .error "Domain name must not be empty if provided." ∧
    (∀ t : List Char, ¬ t = [] →
      domain_or_default (some t) =
        if nameOk t then .ok ⟨t, true⟩ else .error "name parse error") := by
  refine ⟨by decide, by decide, ?_⟩
  intro t ht
  simp only [domain_or_default]
  rw [if_pos (List.length_pos.mpr ht)]
  unfold from_utf8
  have hne : ¬ t ++ ['.'] = ['.'] := by
    intro hc
    have := congrArg List.dropLast hc
    rw [List.dropLast_concat] at this
    exact ht (by simpa using this)
  rw [if_neg hne, if_pos (List.getLast?_concat t), List.dropLast_concat]

/-- Witness for C9 at a concrete input: a well-formed non-empty domain
gets the trailing separator appended. -/
theorem domain_or_default_spec_witness :
    domain_or_default (some ("example".toList)) = .ok ⟨"example".toList, true⟩ := by
  rw [domain_or_default_spec.2.2 ("example".toList) (by decide)]
  decide

/-- C4: update_central_dns writes back exactly when the fetched
resource has a configuration sub-object; the written resource keeps
every other field of the resource and of the configuration, replacing
only the configuration's dns field with the relative-form domain (the
trailing separator stripped by set_fqdn false) and the single listen
address; with no configuration sub-object nothing is written and the
call still succeeds. -/
theorem update_central_dns_spec {ρ σ : Type} (domain_name : Name) (ip : List Char)
    (net : Network ρ σ) :
    (net.config = none → update_central_dns domain_name ip net = none) ∧
    (∀ cfg : NetworkConfig ρ, net.config = some cfg →
      update_central_dns domain_name ip net =
        some ⟨some ⟨some ⟨some domain_name.text, some [ip]⟩, cfg.rest⟩, net.rest⟩) ∧
    Name.to_string (Name.set_fqdn domain_name false) = domain_name.text := by
  refine ⟨?_, ?_, rfl⟩
  · intro hnone
    simp only [update_central_dns, hnone]
  · intro cfg hcfg
    simp only [update_central_dns, hcfg]
    rfl

/-- Witness for C4 at concrete inputs: a resource with an existing
configuration (whose other fields are the value seven) is written back
with only the dns field replaced. -/
theorem update_central_dns_spec_witness :
    update_central_dns (ρ := Nat) (σ := Nat) ⟨"example".toList, true⟩
      ("10.0.0.1".toList) ⟨some ⟨none, 7⟩, 3⟩ =
      some ⟨some ⟨some ⟨some ("example".toList), some ["10.0.0.1".toList]⟩, 7⟩, 3⟩ :=
  (update_central_dns_spec ⟨"example".toList, true⟩ ("10.0.0.1".toList)
    ⟨some ⟨none, 7⟩, 3⟩).2.1 ⟨none, 7⟩ rfl

end Zeronsd
